import Mathlib

/-!
Verification of the bridge-layer core of the moltbot-with-lark repository:
the retry executor (src/utils/retry.ts), the stream processor
(src/bridge/processor.ts, StreamProcessor), the message transformer
(src/bridge/processor.ts, transformer part), and the conversation context
manager (src/bridge/context.ts), embedded shallowly in Lean.
-/

namespace Moltbot

/-! ## Retry executor (src/utils/retry.ts)

`retry` runs `fn` in a loop `for (attempt = 1; attempt <= maxAttempts; attempt++)`.
On an error it computes `shouldRetry = retryableErrors(error)`; if
`!shouldRetry || attempt >= maxAttempts` it throws `RetryExhaustedError`
when `attempt >= maxAttempts` and otherwise rethrows the original error;
otherwise it sleeps and continues.

The operation is modelled as `fn : Nat -> Except E A` giving the outcome of
the i-th invocation (1-indexed); the delay/jitter computation does not
affect control flow and is not modelled.  The pair returned is the terminal
outcome together with the number of invocations of `fn` performed. -/

/-- Terminal outcome of the retry loop. `noAttempt` models the unreachable
fall-through after the loop (`throw lastError` with `lastError` undefined),
reachable only when `maxAttempts = 0`. -/
inductive RetryOutcome (E A : Type) where
  | ok (a : A)
  | exhausted (attempts : Nat) (last : E)
  | original (e : E)
  | noAttempt
deriving DecidableEq, Repr

/-- The retry loop body. `remaining` counts the loop iterations still allowed
by the condition `attempt <= maxAttempts` (so initially `maxAttempts`, with
`attempt` starting at 1); each iteration consumes one. -/
def retryLoop {E A : Type} (fn : Nat → Except E A) (retryable : E → Bool)
    (maxAttempts : Nat) : Nat → Nat → RetryOutcome E A × Nat
  | 0, _ => (RetryOutcome.noAttempt, 0)
  | remaining + 1, attempt =>
    match fn attempt with
    | Except.ok a => (RetryOutcome.ok a, 1)
    | Except.error e =>
      if retryable e = false ∨ maxAttempts ≤ attempt then
        if maxAttempts ≤ attempt then (RetryOutcome.exhausted maxAttempts e, 1)
        else (RetryOutcome.original e, 1)
      else
        let r := retryLoop fn retryable maxAttempts remaining (attempt + 1)
        (r.1, r.2 + 1)

/-- `retry` from src/utils/retry.ts: the loop entered with `attempt = 1`. -/
def retry {E A : Type} (fn : Nat → Except E A) (retryable : E → Bool)
    (maxAttempts : Nat) : RetryOutcome E A × Nat :=
  retryLoop fn retryable maxAttempts maxAttempts 1

/-- Operation used in the counterexample for claim C1: invocation `i` fails
with error `i`. -/
def fnC1 : Nat → Except Nat Unit := fun i => Except.error i

/-- Error classifier used in the counterexample for claim C1: errors 1 and 2
are retryable, error 3 is not. -/
def retryableC1 : Nat → Bool := fun e => decide (e < 3)

/-! ## Stream processor (src/bridge/processor.ts, class StreamProcessor)

Fields `buffer`, `lastUpdateTime` (initialized to 0) and `isComplete`.
`process` folds over the fragment stream, appending each chunk to both the
buffer and `fullResponse`, reading the clock (`Date.now()`), and sending a
partial update (the whole buffer, `isComplete=false`) whenever
`shouldSendPartialUpdate` holds, after which `lastUpdateTime` is set to that
clock value.  When the stream is exhausted it sets `isComplete := true` and
sends a final update with `fullResponse` and `isComplete=true`;
`sendPartialUpdate` clears the buffer after a successful final send and
rethrows delivery failures, which abort `process`.

The fragment stream is modelled as a list of `(chunk, now)` pairs, `now`
being the value `Date.now()` returns for that iteration.  The
RetryExecutor-wrapped delivery callback `onPartialUpdate` is abstracted by
`emitOk : String → Bool → Bool`, giving the ultimate success or failure of
the retried delivery of a given `(content, isComplete)` pair; every
invocation of the (retried) callback is recorded as an `Emission`, together
with the value the `isComplete` field had at the moment of the call. -/

/-- Resolved `StreamProcessingOptions` after the constructor defaults:
`chunkThreshold: options.chunkThreshold || 100`,
`timeThreshold: options.timeThreshold || 1000`,
`sendPartialUpdates: options.sendPartialUpdates ?? true`. -/
structure StreamOptions where
  chunkThreshold : Nat
  timeThreshold : Int
  sendPartialUpdates : Bool
deriving DecidableEq, Repr

/-- The constructor of `StreamProcessor`: JavaScript `||` falls back on the
default when the given value is absent or `0` (falsy); `??` falls back only
when the value is absent. -/
def resolveOptions (chunkThreshold? : Option Nat) (timeThreshold? : Option Int)
    (sendPartialUpdates? : Option Bool) : StreamOptions where
  chunkThreshold := match chunkThreshold? with
    | some c => if c = 0 then 100 else c
    | none => 100
  timeThreshold := match timeThreshold? with
    | some t => if t = 0 then 1000 else t
    | none => 1000
  sendPartialUpdates := sendPartialUpdates?.getD true

/-- The options of a `StreamProcessor` constructed with no explicit option. -/
def defaultStreamOptions : StreamOptions := resolveOptions none none none

/-- The mutable fields of a `StreamProcessor` instance. -/
structure ProcessorState where
  buffer : String
  lastUpdateTime : Int
  isComplete : Bool
deriving DecidableEq, Repr

/-- Field initializers of `StreamProcessor`: `buffer = ""`,
`lastUpdateTime = 0`, `isComplete = false`. -/
def initialProcessorState : ProcessorState :=
  { buffer := "", lastUpdateTime := 0, isComplete := false }

/-- One recorded invocation of the (retried) `onPartialUpdate` callback:
the content and `isComplete` arguments passed to it, and the value of the
processor's `isComplete` field at the moment of the call. -/
structure Emission where
  content : String
  isFinal : Bool
  atComplete : Bool
deriving DecidableEq, Repr

/-- `StreamProcessor.shouldSendPartialUpdate(now)`. -/
def shouldSendPartialUpdate (o : StreamOptions) (st : ProcessorState)
    (now : Int) : Bool :=
  if !o.sendPartialUpdates then false
  else
    decide (o.chunkThreshold ≤ st.buffer.length)
      || (decide (0 < st.buffer.length)
            && decide (o.timeThreshold ≤ now - st.lastUpdateTime))

/-- Result of the chunk-consuming loop of `process`: the processor state,
the accumulated `fullResponse`, the emissions performed so far, and whether
the loop ran to completion (`false` when a partial delivery ultimately
failed, which rethrows out of `process`). -/
structure LoopResult where
  state : ProcessorState
  full : String
  emissions : List Emission
  ok : Bool
deriving DecidableEq, Repr

/-- The `for await (const chunk of streamResponse.textStream)` loop of
`StreamProcessor.process`. -/
def processLoop (o : StreamOptions) (emitOk : String → Bool → Bool) :
    ProcessorState → String → List (String × Int) → LoopResult
  | st, full, [] => ⟨st, full, [], true⟩
  | st, full, (chunk, now) :: rest =>
    let st1 : ProcessorState := { st with buffer := st.buffer ++ chunk }
    let full1 := full ++ chunk
    if shouldSendPartialUpdate o st1 now then
      if emitOk st1.buffer false then
        let r := processLoop o emitOk { st1 with lastUpdateTime := now } full1 rest
        ⟨r.state, r.full, ⟨st1.buffer, false, st1.isComplete⟩ :: r.emissions, r.ok⟩
      else
        ⟨st1, full1, [⟨st1.buffer, false, st1.isComplete⟩], false⟩
    else
      processLoop o emitOk st1 full1 rest

/-- Result of `StreamProcessor.process`: the final processor state, all
emissions in order, and `some fullResponse` on success or `none` when a
delivery failure was rethrown. -/
structure ProcessResult where
  state : ProcessorState
  emissions : List Emission
  result : Option String
deriving DecidableEq, Repr

/-- `StreamProcessor.process` on a fresh instance: run the chunk loop, then
set `isComplete := true` and send the final update (which clears the buffer
on success). -/
def process (o : StreamOptions) (emitOk : String → Bool → Bool)
    (chunks : List (String × Int)) : ProcessResult :=
  let r := processLoop o emitOk initialProcessorState "" chunks
  if r.ok then
    let st1 : ProcessorState := { r.state with isComplete := true }
    let finalEm : Emission := ⟨r.full, true, st1.isComplete⟩
    if emitOk r.full true then
      ⟨{ st1 with buffer := "" }, r.emissions ++ [finalEm], some r.full⟩
    else
      ⟨st1, r.emissions ++ [finalEm], none⟩
  else
    ⟨r.state, r.emissions, none⟩

/-- Delivery callback whose retried delivery always succeeds. -/
def emitAlwaysOk : String → Bool → Bool := fun _ _ => true

/-- Delivery callback whose retried delivery always fails. -/
def emitAlwaysFail : String → Bool → Bool := fun _ _ => false

/-! ## Conversation context manager (src/bridge/context.ts)

`ConversationContextManager` holds a `Map<string, ConversationContext>`,
modelled as an association list with unique keys in insertion order
(`setKey` replaces in place, as `Map.set` does; `deleteKey` removes the
entry).  Clock reads (`Date.now()`) are passed explicitly as `now`. -/

/-- Message role of a `MoltbotMessage` (src/moltbot/types.ts). -/
inductive MoltbotRole where
  | system
  | user
  | assistant
deriving DecidableEq, Repr

/-- `MoltbotMessage` from src/moltbot/types.ts. -/
structure MoltbotMessage where
  role : MoltbotRole
  content : String
deriving DecidableEq, Repr

/-- `ConversationContext` from src/bridge/context.ts. -/
structure ConversationContext where
  chatId : String
  messages : List MoltbotMessage
  lastActivity : Int
  messageCount : Nat
deriving DecidableEq, Repr

/-- `Map.get`: first (and only) binding of a key. -/
def lookupKey {β : Type} : List (String × β) → String → Option β
  | [], _ => none
  | (k, v) :: rest, key => if k = key then some v else lookupKey rest key

/-- `Map.set`: replace the binding in place if the key is present, append it
otherwise (JavaScript `Map` keeps the original insertion position). -/
def setKey {β : Type} : List (String × β) → String → β → List (String × β)
  | [], key, v => [(key, v)]
  | (k, w) :: rest, key, v =>
    if k = key then (key, v) :: rest else (k, w) :: setKey rest key v

/-- `Map.delete`: remove the binding of a key (no-op when absent). -/
def deleteKey {β : Type} (l : List (String × β)) (key : String) :
    List (String × β) :=
  l.filter (fun p => p.1 != key)

/-- `ConversationContextManager`: the conversation map plus the two
configuration values fixed at construction. -/
structure CtxMgr where
  conversations : List (String × ConversationContext)
  maxHistoryLength : Nat
  maxAge : Int
deriving DecidableEq, Repr

/-- The `ConversationContextManager` constructor:
`maxAge = maxAgeHours * 60 * 60 * 1000`, empty conversation map. -/
def mkManager (maxHistoryLength : Nat) (maxAgeHours : Int) : CtxMgr :=
  { conversations := [], maxHistoryLength := maxHistoryLength,
    maxAge := maxAgeHours * 60 * 60 * 1000 }

/-- A manager with an empty map and the bound and age given directly. -/
def emptyMgr (maxHistoryLength : Nat) (maxAge : Int) : CtxMgr :=
  { conversations := [], maxHistoryLength := maxHistoryLength,
    maxAge := maxAge }

/-- `ConversationContextManager.addMessage(chatId, message)` at clock value
`now`: create the context if absent, push the message, set `lastActivity`,
increment `messageCount`, then trim the history from the front
(`messages.splice(0, messages.length - maxHistoryLength)`) when it exceeds
`maxHistoryLength`. -/
def addMessage (m : CtxMgr) (chatId : String) (message : MoltbotMessage)
    (now : Int) : CtxMgr :=
  let context : ConversationContext :=
    match lookupKey m.conversations chatId with
    | some c => c
    | none => { chatId := chatId, messages := [], lastActivity := now,
                messageCount := 0 }
  let pushed := context.messages ++ [message]
  let trimmed :=
    if m.maxHistoryLength < pushed.length then
      pushed.drop (pushed.length - m.maxHistoryLength)
    else pushed
  let context1 : ConversationContext :=
    { context with messages := trimmed, lastActivity := now,
                   messageCount := context.messageCount + 1 }
  { m with conversations := setKey m.conversations chatId context1 }

/-- `ConversationContextManager.getContext(chatId)` at clock value `now`:
absent key yields `[]`; a context with `now - lastActivity > maxAge` is
deleted and yields `[]`; otherwise the stored messages are returned and the
manager is untouched.  The (possibly updated) manager is returned alongside
the messages. -/
def getContext (m : CtxMgr) (chatId : String) (now : Int) :
    List MoltbotMessage × CtxMgr :=
  match lookupKey m.conversations chatId with
  | none => ([], m)
  | some context =>
    if m.maxAge < now - context.lastActivity then
      ([], { m with conversations := deleteKey m.conversations chatId })
    else
      (context.messages, m)

/-- `ConversationContextManager.getActiveConversations()`: the current keys. -/
def getActiveConversations (m : CtxMgr) : List String :=
  m.conversations.map Prod.fst

/-- A sequence of `addMessage` calls to the same `chatId`, each entry a
message paired with the clock value at which it is appended. -/
def addAll (m : CtxMgr) (chatId : String)
    (entries : List (MoltbotMessage × Int)) : CtxMgr :=
  entries.foldl (fun acc e => addMessage acc chatId e.1 e.2) m

/-- Messages used by the concrete context-manager theorems. -/
def msgOld : MoltbotMessage := { role := MoltbotRole.user, content := "old" }

/-- Second concrete message. -/
def msgNew : MoltbotMessage := { role := MoltbotRole.user, content := "new" }

/-- Third concrete message. -/
def msgThird : MoltbotMessage := { role := MoltbotRole.user, content := "three" }

/-- Manager state used in the counterexample for claim C10: bound 1, max age
10, one conversation `"c"` already holding `msgOld` with `lastActivity = 0`. -/
def mgrC10 : CtxMgr :=
  { conversations := [("c", { chatId := "c", messages := [msgOld],
                              lastActivity := 0, messageCount := 1 })],
    maxHistoryLength := 1, maxAge := 10 }

/-! ## Message transformer (src/bridge/processor.ts, transformer part)

`transformLarkToMoltbot`, `transformMoltbotToLark`, `extractTextFromPost`,
`convertMarkdownToLark` and `convertMarkdownToCard`, embedded faithfully,
including the JavaScript truthiness tests (`if (message.textContent)` is
false for an absent field and for the empty string; `x || y` falls back on
falsy `x`).

`convertMarkdownToLark` applies five global regex replacements in order.
Each one is embedded as a character-list scanner implementing the exact
JavaScript regex semantics (leftmost match, scanning resumes after the
matched source text, on a failed match attempt the start position advances
by one character):
  1. fences  `/(three backquotes)(\w+)?\n([\s\S]*?)(three backquotes)/g`
     replaced by the fence, the language, a newline, the code, a newline
     and the closing fence (inserting a newline before the closing fence);
  2. inline code, bold, italic: replacements identical to the match;
  3. links `/\[([^\]]+)\]\(([^)]+)\)/g` replaced by `[` $2 `](` $1 `)` —
     note the swapped capture groups.
The scanners use a fuel parameter; every recursive call consumes at least
one character of the remaining input, so fuel `length + 1` never runs out. -/

/-- The backquote character (code point 96). -/
def backquote : Char := Char.ofNat 96

/-- `\w` of JavaScript regexes: ASCII letters, digits and underscore. -/
def isWordChar (c : Char) : Bool := c.isAlphanum || c = '_'

/-- Split a character list at the first character satisfying `stop`,
returning the (stop-free) part before it and the part after it. -/
def splitFirst (stop : Char → Bool) : List Char → Option (List Char × List Char)
  | [] => none
  | c :: cs =>
    if stop c then some ([], cs)
    else (splitFirst stop cs).map (fun p => (c :: p.1, p.2))

/-- Whether a character list starts with three backquotes. -/
def isFence3 : List Char → Bool
  | a :: b :: c :: _ => a = backquote && b = backquote && c = backquote
  | _ => false

/-- Three backquotes. -/
def fence3 : List Char := [backquote, backquote, backquote]

/-- Split a character list at the first occurrence of three backquotes,
returning the part before it and the part after it (the lazy
`([\s\S]*?)` followed by a literal fence). -/
def splitFirstFence : List Char → Option (List Char × List Char)
  | [] => none
  | c :: cs =>
    if isFence3 (c :: cs) then some ([], cs.drop 2)
    else (splitFirstFence cs).map (fun p => (c :: p.1, p.2))

/-- The code-fence replacement pass of `convertMarkdownToLark`. -/
def replaceFencesAux : Nat → List Char → List Char
  | 0, l => l
  | _fuel + 1, [] => []
  | fuel + 1, c :: cs =>
    if isFence3 (c :: cs) then
      let body := cs.drop 2
      let lang := body.takeWhile isWordChar
      let rest1 := body.dropWhile isWordChar
      match rest1 with
      | '\n' :: rest2 =>
        match splitFirstFence rest2 with
        | some (code, rest3) =>
          fence3 ++ lang ++ '\n' :: (code ++ '\n' :: fence3
            ++ replaceFencesAux fuel rest3)
        | none => c :: replaceFencesAux fuel cs
      | _ => c :: replaceFencesAux fuel cs
    else c :: replaceFencesAux fuel cs

/-- The inline-code replacement pass (replacement identical to the match). -/
def replaceInlineCodeAux : Nat → List Char → List Char
  | 0, l => l
  | _fuel + 1, [] => []
  | fuel + 1, c :: cs =>
    if c = backquote then
      match splitFirst (fun d => d = backquote) cs with
      | some (code, rest) =>
        if code.isEmpty then c :: replaceInlineCodeAux fuel cs
        else c :: (code ++ c :: replaceInlineCodeAux fuel rest)
      | none => c :: replaceInlineCodeAux fuel cs
    else c :: replaceInlineCodeAux fuel cs

/-- The bold replacement pass (replacement identical to the match). -/
def replaceBoldAux : Nat → List Char → List Char
  | 0, l => l
  | _fuel + 1, [] => []
  | fuel + 1, c :: cs =>
    match cs with
    | c2 :: cs2 =>
      if c = '*' ∧ c2 = '*' then
        match splitFirst (fun d => d = '*') cs2 with
        | some (txt, rest) =>
          match rest with
          | '*' :: rest2 =>
            if txt.isEmpty then c :: replaceBoldAux fuel cs
            else '*' :: '*' :: (txt ++ '*' :: '*' :: replaceBoldAux fuel rest2)
          | _ => c :: replaceBoldAux fuel cs
        | none => c :: replaceBoldAux fuel cs
      else c :: replaceBoldAux fuel cs
    | [] => [c]

/-- The italic replacement pass (replacement identical to the match). -/
def replaceItalicAux : Nat → List Char → List Char
  | 0, l => l
  | _fuel + 1, [] => []
  | fuel + 1, c :: cs =>
    if c = '*' then
      match splitFirst (fun d => d = '*') cs with
      | some (txt, rest) =>
        if txt.isEmpty then c :: replaceItalicAux fuel cs
        else c :: (txt ++ '*' :: replaceItalicAux fuel rest)
      | none => c :: replaceItalicAux fuel cs
    else c :: replaceItalicAux fuel cs

/-- Match the body of a link at the current position: the characters after
the opening `[`.  Returns the link text (nonempty, stopping at the first
`]`), the URL (nonempty, stopping at the first `)`), and the remaining
input. -/
def matchLinkBody (cs : List Char) : Option (List Char × List Char × List Char) :=
  match splitFirst (fun d => d = ']') cs with
  | some (txt, rest1) =>
    if txt.isEmpty then none
    else
      match rest1 with
      | '(' :: rest2 =>
        match splitFirst (fun d => d = ')') rest2 with
        | some (url, rest3) =>
          if url.isEmpty then none else some (txt, url, rest3)
        | none => none
      | _ => none
  | none => none

/-- The link replacement pass: `[$2]($1)`, i.e. the text and URL capture
groups are emitted in swapped positions. -/
def replaceLinksAux : Nat → List Char → List Char
  | 0, l => l
  | _fuel + 1, [] => []
  | fuel + 1, c :: cs =>
    if c = '[' then
      match matchLinkBody cs with
      | some (txt, url, rest) =>
        '[' :: (url ++ ']' :: '(' :: (txt ++ ')' :: replaceLinksAux fuel rest))
      | none => c :: replaceLinksAux fuel cs
    else c :: replaceLinksAux fuel cs

/-- `convertMarkdownToLark` from src/bridge/processor.ts: the five global
replacements applied in source order (fences, inline code, bold, italic,
links). -/
def convertMarkdownToLark (markdown : String) : String :=
  let s0 := markdown.toList
  let s1 := replaceFencesAux (s0.length + 1) s0
  let s2 := replaceInlineCodeAux (s1.length + 1) s1
  let s3 := replaceBoldAux (s2.length + 1) s2
  let s4 := replaceItalicAux (s3.length + 1) s3
  let s5 := replaceLinksAux (s4.length + 1) s4
  String.mk s5

/-- `LarkMention` from src/lark/types.ts (fields used by the transformer). -/
structure LarkMention where
  id : String
  idType : String
  name : String
  tenantKey : String
deriving DecidableEq, Repr

/-- `LarkPostElement` from src/lark/types.ts, with the dynamically accessed
`user_id` and `name` keys modelled as optional fields. -/
structure LarkPostElement where
  tag : String
  text : Option String
  href : Option String
  userId : Option String
  name : Option String
deriving DecidableEq, Repr

/-- `LarkPostContent` from src/lark/types.ts. -/
structure LarkPostContent where
  zhCn : Option (List LarkPostElement)
  enUs : Option (List LarkPostElement)
deriving DecidableEq, Repr

/-- `ParsedLarkMessage` from src/lark/types.ts. -/
structure ParsedLarkMessage where
  messageId : String
  chatId : String
  senderId : String
  senderType : String
  messageType : String
  textContent : Option String
  postContent : Option LarkPostContent
  imageKey : Option String
  fileKey : Option String
  mentions : Option (List LarkMention)
  timestamp : Int
deriving DecidableEq, Repr

/-- `MessageAttachment` from src/moltbot/types.ts. -/
structure MessageAttachment where
  type : String
  key : String
deriving DecidableEq, Repr

/-- The context record built by `transformLarkToMoltbot`. -/
structure MessageContext where
  chatId : String
  senderId : String
  senderType : String
  timestamp : Int
  messageId : String
deriving DecidableEq, Repr

/-- `ParsedMessageForMoltbot` from src/moltbot/types.ts. -/
structure ParsedMessageForMoltbot where
  text : String
  attachments : Option (List MessageAttachment)
  context : MessageContext
deriving DecidableEq, Repr

/-- JavaScript `a || b` on an optional string `a`: `b` when `a` is absent or
empty (falsy), `a`'s value otherwise. -/
def orFalsy (a : Option String) (b : String) : String :=
  match a with
  | some s => if s = "" then b else s
  | none => b

/-- JavaScript truthiness of an optional string. -/
def truthyStr (a : Option String) : Bool :=
  match a with
  | some s => s ≠ ""
  | none => false

/-- `extractTextFromPost` from src/bridge/processor.ts:
`post.zh_cn || post.en_us || []` (an array is always truthy), then each
element mapped by tag and joined without separator. -/
def extractTextFromPost (post : LarkPostContent) : String :=
  let elements :=
    match post.zhCn with
    | some l => l
    | none =>
      match post.enUs with
      | some l => l
      | none => []
  String.join (elements.map (fun element =>
    if element.tag = "text" then orFalsy element.text ""
    else if element.tag = "a" then orFalsy element.text (orFalsy element.href "")
    else if element.tag = "at" then
      "@" ++ orFalsy element.userId (orFalsy element.name "")
    else ""))

/-- `transformLarkToMoltbot` from src/bridge/processor.ts. -/
def transformLarkToMoltbot (message : ParsedLarkMessage) :
    ParsedMessageForMoltbot :=
  let text0 : String :=
    if truthyStr message.textContent then (message.textContent).getD ""
    else
      match message.postContent with
      | some post => extractTextFromPost post
      | none => ""
  let attachments : List MessageAttachment :=
    (if truthyStr message.imageKey then
      [{ type := "image", key := (message.imageKey).getD "" }]
     else [])
    ++
    (if truthyStr message.fileKey then
      [{ type := "file", key := (message.fileKey).getD "" }]
     else [])
  let text1 : String :=
    match message.mentions with
    | some ms =>
      if 0 < ms.length then
        String.intercalate " " (ms.map (fun m => "@" ++ m.name)) ++ " " ++ text0
      else text0
    | none => text0
  { text := text1,
    attachments := if 0 < attachments.length then some attachments else none,
    context := { chatId := message.chatId, senderId := message.senderId,
                 senderType := message.senderType,
                 timestamp := message.timestamp,
                 messageId := message.messageId } }

/-- An element of the interactive card built by `convertMarkdownToCard`:
a divider (`{tag: "hr"}`) or a `lark_md` text block. -/
inductive CardElement where
  | hr
  | block (content : String)
deriving DecidableEq, Repr

/-- The card document built by `convertMarkdownToCard`. -/
structure LarkCard where
  wideScreenMode : Bool
  headerTitle : String
  elements : List CardElement
deriving DecidableEq, Repr

/-- `convertMarkdownToCard` from src/bridge/processor.ts: split on newlines,
map blank lines to dividers, strip heading and bullet markers, wrap the rest
unchanged. -/
def convertMarkdownToCard (markdown : String) : LarkCard :=
  let lines := markdown.splitOn "\n"
  let elements := lines.map (fun line =>
    if line.trim = "" then CardElement.hr
    else if line.startsWith "# " then CardElement.block (line.drop 2)
    else if line.startsWith "## " then CardElement.block (line.drop 3)
    else if line.startsWith "- " || line.startsWith "* " then
      CardElement.block (line.drop 2)
    else CardElement.block line)
  { wideScreenMode := true, headerTitle := "Response", elements := elements }

/-- `FormattedResponseForLark` from src/moltbot/types.ts. -/
structure FormattedResponseForLark where
  text : String
  format : String
  card : Option LarkCard
deriving DecidableEq, Repr

/-- `transformMoltbotToLark` from src/bridge/processor.ts. -/
def transformMoltbotToLark (response : String) (format : String) :
    FormattedResponseForLark :=
  if format = "text" then { text := response, format := "text", card := none }
  else if format = "markdown" then
    { text := convertMarkdownToLark response, format := "markdown", card := none }
  else if format = "card" then
    { text := "", format := "card", card := some (convertMarkdownToCard response) }
  else { text := response, format := "text", card := none }

/-- Plain-text message with one mention, used by the counterexample for
claim C4. -/
def msgC4 : ParsedLarkMessage :=
  { messageId := "m1", chatId := "c1", senderId := "u1", senderType := "user",
    messageType := "text", textContent := some "hi", postContent := none,
    imageKey := none, fileKey := none,
    mentions := some [{ id := "id1", idType := "open_id", name := "Ada",
                        tenantKey := "t1" }],
    timestamp := 0 }

/-- Plain-text message without mentions, used by the witness for claim C4. -/
def msgC4W : ParsedLarkMessage :=
  { messageId := "m2", chatId := "c2", senderId := "u2", senderType := "user",
    messageType := "text", textContent := some "hello", postContent := none,
    imageKey := none, fileKey := none, mentions := none, timestamp := 0 }

/-- Operation used in the witness for claim C1: invocation `i` fails with
error `i`. -/
def fnC1W : Nat → Except Nat Unit := fun i => Except.error i

/-- Classifier used in the witness for claim C1: only error 1 is retryable. -/
def retryableC1W : Nat → Bool := fun e => decide (e < 2)

/-- Operation used in the witness for claim C8: every invocation fails with
error 0. -/
def fnC8 : Nat → Except Nat Unit := fun _ => Except.error 0

/-- Classifier used in the witness for claim C8: every error is retryable. -/
def retryableC8 : Nat → Bool := fun _ => true

/-! ## Theorems -/

/-- The retry loop performs at most `remaining` invocations. -/
theorem retryLoop_count_le {E A : Type} (fn : Nat → Except E A) (r : E → Bool)
    (m : Nat) : ∀ remaining attempt, (retryLoop fn r m remaining attempt).2 ≤ remaining := by
  intro remaining
  induction remaining with
  | zero => intro attempt; simp [retryLoop]
  | succ k ih =>
    intro attempt
    simp only [retryLoop]
    cases h : fn attempt with
    | ok a => simp
    | error e =>
      dsimp only
      by_cases hc : r e = false ∨ m ≤ attempt
      · rw [if_pos hc]
        by_cases hm : m ≤ attempt
        · rw [if_pos hm]; omega
        · rw [if_neg hm]; omega
      · rw [if_neg hc]
        have := ih (attempt + 1)
        simpa using Nat.add_le_add_right this 1

/-- If every attempt from `attempt` to `m - 1` fails retryably and the
`m`-th invocation fails, the loop entered with `attempt + remaining = m + 1`
ends in `RetryExhausted` after exactly `remaining` further invocations. -/
theorem retryLoop_exhaust {E A : Type} (fn : Nat → Except E A) (r : E → Bool)
    (m : Nat) :
    ∀ remaining attempt e, 1 ≤ remaining → attempt + remaining = m + 1 →
    (∀ i, attempt ≤ i → i < m → ∃ ei, fn i = Except.error ei ∧ r ei = true) →
    fn m = Except.error e →
    retryLoop fn r m remaining attempt = (RetryOutcome.exhausted m e, remaining) := by
  intro remaining
  induction remaining with
  | zero => intro attempt e h1; omega
  | succ k ih =>
    intro attempt e _h1 h2 hall hm
    by_cases hk : k = 0
    · subst hk
      have ha : attempt = m := by omega
      subst ha
      simp only [retryLoop, hm]
      rw [if_pos (Or.inr (le_refl attempt)), if_pos (le_refl attempt)]
    · have hlt : attempt < m := by omega
      obtain ⟨ei, hei, hri⟩ := hall attempt (le_refl _) hlt
      simp only [retryLoop, hei]
      have hcond : ¬(r ei = false ∨ m ≤ attempt) := by
        rintro (h | h)
        · rw [hri] at h; exact Bool.noConfusion h
        · omega
      rw [if_neg hcond]
      have hrec := ih (attempt + 1) e (by omega) (by omega)
        (fun i hi1 hi2 => hall i (by omega) hi2) hm
      simp [hrec]

/-- If attempts `attempt` to `kk - 1` fail retryably and the `kk`-th
invocation fails non-retryably with `kk < m`, the loop rethrows the original
error after exactly `kk + 1 - attempt` further invocations. -/
theorem retryLoop_original {E A : Type} (fn : Nat → Except E A) (r : E → Bool)
    (m : Nat) :
    ∀ remaining attempt kk e, attempt + remaining = m + 1 → attempt ≤ kk →
    kk < m →
    (∀ i, attempt ≤ i → i < kk → ∃ ei, fn i = Except.error ei ∧ r ei = true) →
    fn kk = Except.error e → r e = false →
    retryLoop fn r m remaining attempt = (RetryOutcome.original e, kk + 1 - attempt) := by
  intro remaining
  induction remaining with
  | zero => intro attempt kk e h1 h2 h3; omega
  | succ k ih =>
    intro attempt kk e h1 h2 h3 hall hk hr
    by_cases heq : attempt = kk
    · subst heq
      simp only [retryLoop, hk]
      rw [if_pos (Or.inl hr), if_neg (by omega : ¬ m ≤ attempt)]
      simp
    · have hlt : attempt < kk := by omega
      obtain ⟨ei, hei, hri⟩ := hall attempt (le_refl _) hlt
      simp only [retryLoop, hei]
      have hcond : ¬(r ei = false ∨ m ≤ attempt) := by
        rintro (h | h)
        · rw [hri] at h; exact Bool.noConfusion h
        · omega
      rw [if_neg hcond]
      have hrec := ih (attempt + 1) kk e (by omega) (by omega) h3
        (fun i hi1 hi2 => hall i (by omega) hi2) hk hr
      simp only [hrec]
      have : kk + 1 - (attempt + 1) + 1 = kk + 1 - attempt := by omega
      rw [this]

/-- Claim C1 counterexample: with `maxAttempts = 3`, attempts 1 and 2
failing retryably and attempt 3 failing with a non-retryable error, `retry`
raises `RetryExhausted` — not the original error, although one of the
failures (the last) was classified non-retryable. -/
theorem retry_exhausted_despite_nonretryable_last :
    retryableC1 3 = false ∧
    retryableC1 1 = true ∧ retryableC1 2 = true ∧
    fnC1 3 = Except.error 3 ∧
    retry fnC1 retryableC1 3 = (RetryOutcome.exhausted 3 3, 3) :=
  ⟨by decide, by decide, by decide, rfl, by decide⟩

/-- Claim C1 (amended): when `retry` terminates with an error, it raises
`RetryExhausted` exactly when all `maxAttempts` invocations failed with the
failures before the last all classified retryable — regardless of the
classification of the last failure; a non-retryable failure on an attempt
before the last re-raises the original error unchanged, stopping after
exactly one more invocation than already performed. -/
theorem retry_terminal_error_classification {E A : Type}
    (fn : Nat → Except E A) (r : E → Bool) (m : Nat) (hm : 1 ≤ m) :
    (∀ k e, 1 ≤ k → k < m →
      (∀ i, 1 ≤ i → i < k → ∃ ei, fn i = Except.error ei ∧ r ei = true) →
      fn k = Except.error e → r e = false →
      retry fn r m = (RetryOutcome.original e, k)) ∧
    (∀ e, (∀ i, 1 ≤ i → i < m → ∃ ei, fn i = Except.error ei ∧ r ei = true) →
      fn m = Except.error e →
      retry fn r m = (RetryOutcome.exhausted m e, m)) := by
  constructor
  · intro k e hk1 hkm hall hke hre
    have := retryLoop_original fn r m m 1 k e (by omega) hk1 hkm hall hke hre
    simpa [retry] using this
  · intro e hall hme
    have := retryLoop_exhaust fn r m m 1 e hm (by omega) hall hme
    simpa [retry] using this

/-- Witness for the amended claim C1: with `maxAttempts = 3`, a retryable
failure on attempt 1 and a non-retryable failure on attempt 2, the original
error 2 is re-raised after exactly 2 invocations. -/
theorem retry_terminal_error_classification_witness :
    retry fnC1W retryableC1W 3 = (RetryOutcome.original 2, 2) :=
  (retry_terminal_error_classification fnC1W retryableC1W 3 (by decide)).1 2 2
    (by decide) (by decide)
    (fun i h1 h2 => ⟨i, rfl, by
      have : i = 1 := by omega
      subst this; decide⟩)
    rfl (by decide)

/-- Claim C8: an operation that fails retryably on every attempt with
`maxAttempts = 3` is invoked exactly 3 times and `retry` then raises
`RetryExhausted` with `attempts = 3`; in general `maxAttempts` bounds the
total number of invocations of the operation. -/
theorem retry_exhausts_after_three_attempts {E A : Type}
    (fn : Nat → Except E A) (r : E → Bool)
    (h : ∀ i, 1 ≤ i → i ≤ 3 → ∃ e, fn i = Except.error e ∧ r e = true) :
    (∃ e, fn 3 = Except.error e ∧
      retry fn r 3 = (RetryOutcome.exhausted 3 e, 3)) ∧
    ∀ (fn2 : Nat → Except E A) (r2 : E → Bool) (mm : Nat),
      (retry fn2 r2 mm).2 ≤ mm := by
  constructor
  · obtain ⟨e, he, _⟩ := h 3 (by omega) (le_refl 3)
    refine ⟨e, he, ?_⟩
    have := retryLoop_exhaust fn r 3 3 1 e (by omega) (by omega)
      (fun i hi1 hi2 => h i hi1 (by omega)) he
    simpa [retry] using this
  · intro fn2 r2 mm
    exact retryLoop_count_le fn2 r2 mm mm 1

/-- Witness for claim C8: the always-failing, always-retryable operation
`fnC8` is invoked exactly 3 times and `retry` raises `RetryExhausted 3`. -/
theorem retry_exhausts_after_three_attempts_witness :
    retry fnC8 retryableC8 3 = (RetryOutcome.exhausted 3 0, 3) := by
  have h := (retry_exhausts_after_three_attempts fnC8 retryableC8
    (fun i _ _ => ⟨0, rfl, rfl⟩)).1
  obtain ⟨e, he, hr⟩ := h
  have he0 : e = 0 := by
    have : Except.error (ε := Nat) (α := Unit) 0 = Except.error e := he
    exact (Except.error.inj this).symm
  rw [he0] at hr
  exact hr

/-- A nonempty string has positive length. -/
theorem string_length_pos_of_ne (s : String) (h : s ≠ "") : 0 < s.length := by
  cases s with
  | mk data =>
    cases data with
    | nil => exact absurd rfl h
    | cons c cs => simp [String.length]

/-- Folding string append over a list distributes over a prepended string. -/
theorem string_foldl_shift (l : List String) :
    ∀ a b : String,
      l.foldl (fun r s => r ++ s) (a ++ b) = a ++ l.foldl (fun r s => r ++ s) b := by
  induction l with
  | nil => intro a b; rfl
  | cons c t ih =>
    intro a b
    simp only [List.foldl_cons]
    rw [String.append_assoc, ih a (b ++ c)]

/-- `String.join` of a cons. -/
theorem string_join_cons (s : String) (l : List String) :
    String.join (s :: l) = s ++ String.join l := by
  have h := string_foldl_shift l s ""
  rw [String.append_empty] at h
  simp only [String.join, List.foldl_cons]
  have e : ("" ++ s : String) = s := rfl
  rw [e, h]

/-- The chunk loop never changes `isComplete`, and every emission it makes
has `isFinal = false` and records the unchanged `isComplete` value. -/
theorem processLoop_flags (o : StreamOptions) (emitOk : String → Bool → Bool) :
    ∀ (chunks : List (String × Int)) (st : ProcessorState) (full : String),
      (processLoop o emitOk st full chunks).state.isComplete = st.isComplete ∧
      ∀ em ∈ (processLoop o emitOk st full chunks).emissions,
        em.isFinal = false ∧ em.atComplete = st.isComplete := by
  intro chunks
  induction chunks with
  | nil =>
    intro st full
    refine ⟨rfl, ?_⟩
    intro em hem
    simp [processLoop] at hem
  | cons p rest ih =>
    obtain ⟨chunk, now⟩ := p
    intro st full
    simp only [processLoop]
    by_cases hs : shouldSendPartialUpdate o { st with buffer := st.buffer ++ chunk } now = true
    · rw [if_pos hs]
      by_cases he : emitOk (st.buffer ++ chunk) false = true
      · rw [if_pos he]
        have h2 := ih { st with buffer := st.buffer ++ chunk, lastUpdateTime := now }
          (full ++ chunk)
        refine ⟨h2.1, ?_⟩
        intro em hem
        rcases List.mem_cons.mp hem with hem1 | hem2
        · subst hem1; exact ⟨rfl, rfl⟩
        · exact h2.2 em hem2
      · rw [if_neg he]
        refine ⟨rfl, ?_⟩
        intro em hem
        rcases List.mem_singleton.mp hem with rfl
        exact ⟨rfl, rfl⟩
    · rw [if_neg hs]
      exact ih _ _

/-- When the chunk loop runs to completion, `fullResponse` is the starting
accumulator followed by the concatenation of all chunks in arrival order. -/
theorem processLoop_full_concat (o : StreamOptions) (emitOk : String → Bool → Bool) :
    ∀ (chunks : List (String × Int)) (st : ProcessorState) (full : String),
      (processLoop o emitOk st full chunks).ok = true →
      (processLoop o emitOk st full chunks).full
        = full ++ String.join (chunks.map Prod.fst) := by
  intro chunks
  induction chunks with
  | nil =>
    intro st full _
    show full = full ++ String.join []
    rw [show String.join ([] : List String) = "" from rfl, String.append_empty]
  | cons p rest ih =>
    obtain ⟨chunk, now⟩ := p
    intro st full hok
    simp only [processLoop] at hok ⊢
    by_cases hs : shouldSendPartialUpdate o { st with buffer := st.buffer ++ chunk } now = true
    · rw [if_pos hs] at hok ⊢
      by_cases he : emitOk (st.buffer ++ chunk) false = true
      · rw [if_pos he] at hok ⊢
        rw [ih _ _ hok, List.map_cons, string_join_cons, ← String.append_assoc]
      · rw [if_neg he] at hok
        exact absurd hok (by simp)
    · rw [if_neg hs] at hok ⊢
      rw [ih _ _ hok, List.map_cons, string_join_cons, ← String.append_assoc]

/-- Claim C2 counterexample: `process` sets `isComplete := true` and only
then invokes the emit callback for the final update, so an emit call happens
after the instant `complete` becomes true (the recorded final emission has
`atComplete = true`); moreover, when the final delivery fails, the run ends
with `isComplete = true` while the buffer is not cleared. -/
theorem process_emits_after_complete_set :
    (process defaultStreamOptions emitAlwaysOk [("a", 0)]).emissions
      = [{ content := "a", isFinal := true, atComplete := true }] ∧
    (process defaultStreamOptions emitAlwaysFail [("a", 0)]).state
      = { buffer := "a", lastUpdateTime := 0, isComplete := true } := by
  exact ⟨by decide, by decide⟩

/-- Claim C2 (amended): `complete` is set to true immediately before the
final emission is attempted, so the final emission is the only emit call
occurring at or after the instant `complete` becomes true; and when the
final emission succeeds (`process` returns the text), `complete` is true,
the buffer is cleared, and the final emission is the last one. -/
theorem process_complete_flag_semantics (o : StreamOptions)
    (emitOk : String → Bool → Bool) (chunks : List (String × Int)) :
    (∀ em ∈ (process o emitOk chunks).emissions,
      em.atComplete = true → em.isFinal = true) ∧
    (∀ full, (process o emitOk chunks).result = some full →
      (process o emitOk chunks).state.isComplete = true ∧
      (process o emitOk chunks).state.buffer = "" ∧
      (process o emitOk chunks).emissions.getLast?
        = some { content := full, isFinal := true, atComplete := true }) := by
  have hflags := processLoop_flags o emitOk chunks initialProcessorState ""
  simp only [process]
  by_cases hok : (processLoop o emitOk initialProcessorState "" chunks).ok = true
  · rw [if_pos hok]
    by_cases he : emitOk (processLoop o emitOk initialProcessorState "" chunks).full true = true
    · rw [if_pos he]
      constructor
      · intro em hem hc
        rcases List.mem_append.mp hem with hem1 | hem2
        · have := (hflags.2 em hem1).2
          rw [hc] at this
          exact absurd this.symm (by simp [initialProcessorState])
        · rcases List.mem_singleton.mp hem2 with rfl
          rfl
      · intro full hfull
        have : (processLoop o emitOk initialProcessorState "" chunks).full = full :=
          Option.some.inj hfull
        subst this
        exact ⟨rfl, rfl, List.getLast?_concat _⟩
    · rw [if_neg he]
      constructor
      · intro em hem hc
        rcases List.mem_append.mp hem with hem1 | hem2
        · have := (hflags.2 em hem1).2
          rw [hc] at this
          exact absurd this.symm (by simp [initialProcessorState])
        · rcases List.mem_singleton.mp hem2 with rfl
          rfl
      · intro full hfull
        exact absurd hfull (by simp)
  · rw [if_neg hok]
    constructor
    · intro em hem hc
      have := (hflags.2 em hem).2
      rw [hc] at this
      exact absurd this.symm (by simp [initialProcessorState])
    · intro full hfull
      exact absurd hfull (by simp)

/-- Claim C5: whenever `process` (thresholds 100 chars / 1000 ms, the
defaults) succeeds, the returned/finally-emitted content equals the
concatenation of all fragments in arrival order, and `isFinal = true` occurs
exactly once, as the last emission. -/
theorem process_final_is_concat_once_last (emitOk : String → Bool → Bool)
    (chunks : List (String × Int)) (full : String)
    (h : (process defaultStreamOptions emitOk chunks).result = some full) :
    defaultStreamOptions
      = { chunkThreshold := 100, timeThreshold := 1000, sendPartialUpdates := true } ∧
    full = String.join (chunks.map Prod.fst) ∧
    ∃ ems, (process defaultStreamOptions emitOk chunks).emissions
        = ems ++ [{ content := full, isFinal := true, atComplete := true }] ∧
      ∀ em ∈ ems, em.isFinal = false := by
  have hflags := processLoop_flags defaultStreamOptions emitOk chunks initialProcessorState ""
  refine ⟨rfl, ?_⟩
  simp only [process] at h ⊢
  by_cases hok : (processLoop defaultStreamOptions emitOk initialProcessorState "" chunks).ok = true
  · rw [if_pos hok] at h ⊢
    by_cases he : emitOk (processLoop defaultStreamOptions emitOk initialProcessorState "" chunks).full true = true
    · rw [if_pos he] at h ⊢
      have hfull : (processLoop defaultStreamOptions emitOk initialProcessorState "" chunks).full = full :=
        Option.some.inj h
      have hcat := processLoop_full_concat defaultStreamOptions emitOk chunks
        initialProcessorState "" hok
      rw [hfull] at hcat
      have e0 : ("" ++ String.join (chunks.map Prod.fst) : String)
          = String.join (chunks.map Prod.fst) := rfl
      rw [e0] at hcat
      refine ⟨hcat, ⟨(processLoop defaultStreamOptions emitOk initialProcessorState "" chunks).emissions, ?_, ?_⟩⟩
      · rw [hfull]
      · intro em hem
        exact (hflags.2 em hem).1
    · rw [if_neg he] at h
      exact absurd h (by simp)
  · rw [if_neg hok] at h
    exact absurd h (by simp)

/-- Witness for claim C5: the single-fragment run `[("a", 0)]` with an
always-successful delivery succeeds with text `"a"`, which is the
concatenation of the fragments, and the final emission is last. -/
theorem process_final_is_concat_once_last_witness :
    defaultStreamOptions
      = { chunkThreshold := 100, timeThreshold := 1000, sendPartialUpdates := true } ∧
    "a" = String.join ([("a", (0:Int))].map Prod.fst) ∧
    ∃ ems, (process defaultStreamOptions emitAlwaysOk [("a", 0)]).emissions
        = ems ++ [{ content := "a", isFinal := true, atComplete := true }] ∧
      ∀ em ∈ ems, em.isFinal = false :=
  process_final_is_concat_once_last emitAlwaysOk [("a", 0)] "a" (by decide)

/-- The emissions of `process` are those of the chunk loop, followed by the
final emission when the loop ran to completion. -/
theorem process_emissions_structure (o : StreamOptions)
    (emitOk : String → Bool → Bool) (chunks : List (String × Int)) :
    (process o emitOk chunks).emissions
      = (processLoop o emitOk initialProcessorState "" chunks).emissions
        ++ (if (processLoop o emitOk initialProcessorState "" chunks).ok = true
            then [{ content := (processLoop o emitOk initialProcessorState "" chunks).full,
                    isFinal := true, atComplete := true }]
            else []) := by
  simp only [process]
  by_cases hok : (processLoop o emitOk initialProcessorState "" chunks).ok = true
  · rw [if_pos hok, if_pos hok]
    by_cases he : emitOk (processLoop o emitOk initialProcessorState "" chunks).full true = true
    · rw [if_pos he]
    · rw [if_neg he]
  · rw [if_neg hok, if_neg hok, List.append_nil]

/-- Claim C9: on a fresh processor with partial updates enabled,
`lastUpdateTime = 0` makes the time clause of the emission predicate hold
for the very first nonempty fragment whenever the clock value is at least
`timeThreshold`, so a partial update is emitted for that fragment no matter
how short it is compared to `chunkThreshold`. -/
theorem first_fragment_triggers_update (o : StreamOptions)
    (emitOk : String → Bool → Bool) (c : String) (now : Int)
    (rest : List (String × Int))
    (h1 : o.sendPartialUpdates = true) (h2 : c ≠ "")
    (h3 : o.timeThreshold ≤ now) :
    shouldSendPartialUpdate o
      { buffer := c, lastUpdateTime := 0, isComplete := false } now = true ∧
    ∃ ems, (process o emitOk ((c, now) :: rest)).emissions
        = { content := c, isFinal := false, atComplete := false } :: ems := by
  have hlen : 0 < c.length := string_length_pos_of_ne c h2
  have hpred : shouldSendPartialUpdate o
      { buffer := c, lastUpdateTime := 0, isComplete := false } now = true := by
    simp only [shouldSendPartialUpdate, h1, Bool.not_true, Bool.false_eq_true,
      if_false]
    have e : now - (0:Int) = now := by ring
    simp only [e]
    simp [hlen, h3]
  refine ⟨hpred, ?_⟩
  have hhead : ∃ ems0,
      (processLoop o emitOk initialProcessorState "" ((c, now) :: rest)).emissions
        = { content := c, isFinal := false, atComplete := false } :: ems0 := by
    simp only [processLoop, initialProcessorState]
    rw [show (({ buffer := "", lastUpdateTime := 0, isComplete := false } :
        ProcessorState).buffer ++ c) = c from rfl]
    rw [if_pos (by exact hpred)]
    by_cases he : emitOk c false = true
    · rw [if_pos he]
      exact ⟨_, rfl⟩
    · rw [if_neg he]
      exact ⟨[], rfl⟩
  obtain ⟨ems0, hems0⟩ := hhead
  rw [process_emissions_structure, hems0, List.cons_append]
  exact ⟨_, rfl⟩

/-- Witness for claim C9: with default options, a fresh processor given the
one-character fragment `"a"` at clock value 1000 emits a partial update for
it first. -/
theorem first_fragment_triggers_update_witness :
    shouldSendPartialUpdate defaultStreamOptions
      { buffer := "a", lastUpdateTime := 0, isComplete := false } 1000 = true ∧
    ∃ ems, (process defaultStreamOptions emitAlwaysOk [("a", 1000)]).emissions
        = { content := "a", isFinal := false, atComplete := false } :: ems :=
  first_fragment_triggers_update defaultStreamOptions emitAlwaysOk "a" 1000 []
    rfl (by decide) (by decide)

/-- Looking up a key just set finds the set value. -/
theorem lookupKey_setKey_self {β : Type} :
    ∀ (l : List (String × β)) (k : String) (v : β),
      lookupKey (setKey l k v) k = some v := by
  intro l
  induction l with
  | nil => intro k v; simp [setKey, lookupKey]
  | cons p rest ih =>
    intro k v
    obtain ⟨k0, v0⟩ := p
    simp only [setKey]
    by_cases h : k0 = k
    · rw [if_pos h]; simp [lookupKey]
    · rw [if_neg h]
      simp only [lookupKey]
      rw [if_neg h]
      exact ih k v

/-- Looking up a deleted key finds nothing. -/
theorem lookupKey_deleteKey_self {β : Type} :
    ∀ (l : List (String × β)) (k : String),
      lookupKey (deleteKey l k) k = none := by
  intro l
  induction l with
  | nil => intro k; rfl
  | cons p rest ih =>
    intro k
    obtain ⟨k0, v0⟩ := p
    simp only [deleteKey, List.filter_cons] at ih ⊢
    by_cases h : k0 = k
    · subst h
      simp only [bne_self_eq_false, Bool.false_eq_true, if_false]
      exact ih _
    · have hb : (k0 != k) = true := bne_iff_ne.mpr h
      simp only [hb, if_true, lookupKey]
      rw [if_neg h]
      exact ih k

/-- Deleting one key leaves the lookups of every other key unchanged. -/
theorem lookupKey_deleteKey_other {β : Type} :
    ∀ (l : List (String × β)) (k k2 : String), k2 ≠ k →
      lookupKey (deleteKey l k) k2 = lookupKey l k2 := by
  intro l
  induction l with
  | nil => intro k k2 _; rfl
  | cons p rest ih =>
    intro k k2 h
    obtain ⟨k0, v0⟩ := p
    simp only [deleteKey, List.filter_cons] at ih ⊢
    by_cases h0 : k0 = k
    · subst h0
      simp only [bne_self_eq_false, Bool.false_eq_true, if_false]
      rw [ih _ k2 h]
      simp only [lookupKey]
      rw [if_neg (fun hk => h hk.symm)]
    · have hb : (k0 != k) = true := bne_iff_ne.mpr h0
      simp only [hb, if_true, lookupKey]
      by_cases h2 : k0 = k2
      · rw [if_pos h2, if_pos h2]
      · rw [if_neg h2, if_neg h2]
        exact ih k k2 h

/-- A deleted key is absent from the key list. -/
theorem not_mem_map_fst_deleteKey {β : Type} (l : List (String × β))
    (k : String) : k ∉ (deleteKey l k).map Prod.fst := by
  intro hmem
  obtain ⟨p, hp, hpk⟩ := List.mem_map.mp hmem
  have hfilter := List.of_mem_filter hp
  rw [hpk] at hfilter
  simp at hfilter

/-- One `push`-and-trim step keeps the history equal to the last `L`
elements: pushing `x` onto the last `L` elements of `ms` and trimming to `L`
gives the last `L` elements of `ms ++ [x]`. -/
theorem drop_bound_step {α : Type} (L : Nat) (ms : List α) (x : α) :
    (if L < (ms.drop (ms.length - L) ++ [x]).length
     then (ms.drop (ms.length - L) ++ [x]).drop
            ((ms.drop (ms.length - L) ++ [x]).length - L)
     else ms.drop (ms.length - L) ++ [x])
      = (ms ++ [x]).drop (ms.length + 1 - L) := by
  have hplen : (ms.drop (ms.length - L)).length = ms.length - (ms.length - L) :=
    List.length_drop _ _
  by_cases hL : L ≤ ms.length
  · have hc : L < (ms.drop (ms.length - L) ++ [x]).length := by
      rw [List.length_append, hplen]
      simp
      omega
    rw [if_pos hc]
    have hc1 : (ms.drop (ms.length - L) ++ [x]).length - L = 1 := by
      rw [List.length_append, hplen]
      simp
      omega
    rw [hc1]
    rcases Nat.eq_zero_or_pos L with hL0 | hL0
    · subst hL0
      rw [show ms.length - 0 = ms.length from rfl, List.drop_length]
      rw [show (([] : List α) ++ [x]).drop 1 = [] from rfl]
      symm
      apply List.drop_eq_nil_of_le
      simp
    · have h2 : 1 ≤ (ms.drop (ms.length - L)).length := by
        rw [hplen]; omega
      rw [List.drop_append_of_le_length h2, List.drop_drop]
      rw [List.drop_append_of_le_length
        (by omega : ms.length + 1 - L ≤ ms.length)]
      have h3 : ms.length - L + 1 = ms.length + 1 - L := by omega
      rw [h3]
  · have h0 : ms.length - L = 0 := by omega
    rw [h0, List.drop_zero]
    have hc : ¬ L < (ms ++ [x]).length := by
      simp
      omega
    rw [if_neg hc]
    have h1 : ms.length + 1 - L = 0 := by omega
    rw [h1, List.drop_zero]

/-- `addMessage` does not change the configuration fields. -/
theorem addAll_config (cid : String) :
    ∀ (entries : List (MoltbotMessage × Int)) (m : CtxMgr),
      (addAll m cid entries).maxAge = m.maxAge ∧
      (addAll m cid entries).maxHistoryLength = m.maxHistoryLength := by
  intro entries
  induction entries with
  | nil => intro m; exact ⟨rfl, rfl⟩
  | cons e rest ih =>
    intro m
    have h := ih (addMessage m cid e.1 e.2)
    simpa [addAll, List.foldl_cons] using h

/-- After appending the entries `entries ++ [e]` to an initially empty
manager, the conversation holds exactly the most recent `maxHistoryLength`
of the appended messages, its `lastActivity` is the clock value of the last
append, and `messageCount` counts every append. -/
theorem addAll_lookup (L : Nat) (A : Int) (cid : String) :
    ∀ (entries : List (MoltbotMessage × Int)) (e : MoltbotMessage × Int),
      lookupKey (addAll (emptyMgr L A) cid (entries ++ [e])).conversations cid
        = some { chatId := cid,
                 messages := (((entries ++ [e]).map Prod.fst)).drop
                   ((entries ++ [e]).length - L),
                 lastActivity := e.2,
                 messageCount := (entries ++ [e]).length } := by
  intro entries
  induction entries using List.reverseRecOn with
  | nil =>
    intro e
    by_cases hL : L < 1
    · have h0 : L = 0 := by omega
      subst h0
      simp [addAll, addMessage, emptyMgr, lookupKey, setKey]
    · have h1 : (1:Nat) - L = 0 := by omega
      simp [addAll, addMessage, emptyMgr, lookupKey, setKey, h1, hL]
  | append_singleton l e2 ih =>
    intro e
    have hfold : addAll (emptyMgr L A) cid ((l ++ [e2]) ++ [e])
        = addMessage (addAll (emptyMgr L A) cid (l ++ [e2])) cid e.1 e.2 := by
      simp [addAll, List.foldl_append]
    rw [hfold]
    have hprev := ih e2
    have hcfg := addAll_config cid (l ++ [e2]) (emptyMgr L A)
    simp only [addMessage, hprev]
    rw [lookupKey_setKey_self]
    rw [hcfg.2]
    rw [show (emptyMgr L A).maxHistoryLength = L from rfl]
    have hmslen : ((l ++ [e2]).map Prod.fst).length = (l ++ [e2]).length :=
      List.length_map _ _
    have hstep := drop_bound_step L ((l ++ [e2]).map Prod.fst) e.1
    rw [hmslen] at hstep
    rw [hstep]
    simp [List.map_append, List.length_append]

/-- Claim C6: for any sequence of appends to one conversation longer than
`maxHistoryLength`, the stored history never exceeds `maxHistoryLength` (the
oldest entries are dropped), and `getContext` — read before the entry
expires — returns exactly the most recent `maxHistoryLength` messages in
their original relative order. -/
theorem history_bounded_most_recent (L : Nat) (A : Int) (cid : String)
    (entries : List (MoltbotMessage × Int)) (e : MoltbotMessage × Int)
    (now : Int)
    (hlen : L < (entries ++ [e]).length)
    (hfresh : now - e.2 ≤ A) :
    (getContext (addAll (emptyMgr L A) cid (entries ++ [e])) cid now).1
      = ((entries ++ [e]).map Prod.fst).drop ((entries ++ [e]).length - L) ∧
    (∀ ctx, lookupKey (addAll (emptyMgr L A) cid (entries ++ [e])).conversations cid
        = some ctx → ctx.messages.length ≤ L) := by
  have hl := addAll_lookup L A cid entries e
  have hcfg := addAll_config cid (entries ++ [e]) (emptyMgr L A)
  constructor
  · simp only [getContext, hl]
    rw [if_neg ?hc]
    case hc =>
      rw [hcfg.1]
      rw [show (emptyMgr L A).maxAge = A from rfl]
      omega
  · intro ctx hctx
    rw [hl] at hctx
    have := Option.some.inj hctx
    subst this
    simp only [List.length_drop, List.length_map]
    omega

/-- Witness for claim C6: three appends with bound 2 leave exactly the last
two messages, returned in order by `getContext`. -/
theorem history_bounded_most_recent_witness :
    (getContext (addAll (emptyMgr 2 10) "c" ([(msgOld, 0), (msgNew, 0)] ++ [(msgThird, 0)])) "c" 5).1
      = (([(msgOld, 0), (msgNew, 0)] ++ [(msgThird, (0:Int))]).map Prod.fst).drop
          (([(msgOld, 0), (msgNew, 0)] ++ [(msgThird, (0:Int))]).length - 2) ∧
    (∀ ctx, lookupKey (addAll (emptyMgr 2 10) "c" ([(msgOld, 0), (msgNew, 0)] ++ [(msgThird, 0)])).conversations "c"
        = some ctx → ctx.messages.length ≤ 2) :=
  history_bounded_most_recent 2 10 "c" [(msgOld, 0), (msgNew, 0)] (msgThird, 0) 5
    (by decide) (by decide)

/-- Claim C7: `getContext` returns the stored messages exactly when the
conversation exists and `now - lastActivity ≤ maxAge`, leaving the manager
untouched (in particular `lastActivity` is not mutated); when the
conversation is absent it returns `[]` and leaves the manager untouched;
when it exists but is expired it returns `[]`, deletes exactly that
conversation (which also disappears from the active list), and leaves every
other conversation and the configuration unchanged. -/
theorem getContext_classification (m : CtxMgr) (cid : String) (now : Int) :
    (lookupKey m.conversations cid = none → getContext m cid now = ([], m)) ∧
    (∀ ctx, lookupKey m.conversations cid = some ctx →
      now - ctx.lastActivity ≤ m.maxAge →
      getContext m cid now = (ctx.messages, m)) ∧
    (∀ ctx, lookupKey m.conversations cid = some ctx →
      m.maxAge < now - ctx.lastActivity →
      (getContext m cid now).1 = [] ∧
      lookupKey (getContext m cid now).2.conversations cid = none ∧
      cid ∉ getActiveConversations (getContext m cid now).2 ∧
      (∀ k, k ≠ cid →
        lookupKey (getContext m cid now).2.conversations k = lookupKey m.conversations k) ∧
      (getContext m cid now).2.maxAge = m.maxAge ∧
      (getContext m cid now).2.maxHistoryLength = m.maxHistoryLength) := by
  refine ⟨?_, ?_, ?_⟩
  · intro h
    simp [getContext, h]
  · intro ctx h hfresh
    simp only [getContext, h]
    rw [if_neg (by omega)]
  · intro ctx h hexp
    simp only [getContext, h]
    rw [if_pos (by omega)]
    refine ⟨rfl, ?_, ?_, ?_, rfl, rfl⟩
    · exact lookupKey_deleteKey_self _ _
    · exact not_mem_map_fst_deleteKey _ _
    · intro k hk
      exact lookupKey_deleteKey_other _ _ _ hk

/-- Witness for claim C7, expired case: the conversation of `mgrC10` read at
clock 100 (age 100 > maxAge 10) yields `[]` and is deleted. -/
theorem getContext_classification_witness :
    (getContext mgrC10 "c" 100).1 = [] ∧
    lookupKey (getContext mgrC10 "c" 100).2.conversations "c" = none ∧
    "c" ∉ getActiveConversations (getContext mgrC10 "c" 100).2 ∧
    (∀ k, k ≠ "c" →
      lookupKey (getContext mgrC10 "c" 100).2.conversations k
        = lookupKey mgrC10.conversations k) ∧
    (getContext mgrC10 "c" 100).2.maxAge = mgrC10.maxAge ∧
    (getContext mgrC10 "c" 100).2.maxHistoryLength = mgrC10.maxHistoryLength :=
  (getContext_classification mgrC10 "c" 100).2.2
    { chatId := "c", messages := [msgOld], lastActivity := 0, messageCount := 1 }
    rfl (by decide)

/-- Claim C10 counterexample: appending to the expired, full conversation of
`mgrC10` does not preserve all of its existing messages — the oldest one is
dropped by the `maxHistoryLength` trim, so the immediately following read
returns only the new message. -/
theorem addMessage_drops_oldest_when_full :
    lookupKey mgrC10.conversations "c"
      = some { chatId := "c", messages := [msgOld], lastActivity := 0,
               messageCount := 1 } ∧
    mgrC10.maxAge < (100:Int) - 0 ∧
    (getContext (addMessage mgrC10 "c" msgNew 100) "c" 100).1 = [msgNew] ∧
    msgOld ∉ (getContext (addMessage mgrC10 "c" msgNew 100) "c" 100).1 :=
  ⟨rfl, by decide, by decide, by decide⟩

/-- Claim C10 (amended): `addMessage` never performs an expiry check —
appending to an existing conversation, however stale its `lastActivity`,
keeps its stored messages except for those dropped by the
`maxHistoryLength` trim (all of them whenever the history is below the
bound), adds the new message last, resets `lastActivity` to now, and an
immediately following `getContext` returns those messages, including any
appended more than `maxAge` earlier. -/
theorem addMessage_skips_expiry (m : CtxMgr) (cid : String)
    (ctx : ConversationContext) (message : MoltbotMessage) (now : Int)
    (h : lookupKey m.conversations cid = some ctx) (hA : 0 ≤ m.maxAge) :
    ∃ ctx2,
      lookupKey (addMessage m cid message now).conversations cid = some ctx2 ∧
      ctx2.lastActivity = now ∧
      ctx2.messages
        = (if m.maxHistoryLength < (ctx.messages ++ [message]).length
           then (ctx.messages ++ [message]).drop
                  ((ctx.messages ++ [message]).length - m.maxHistoryLength)
           else ctx.messages ++ [message]) ∧
      (ctx.messages.length < m.maxHistoryLength →
        ctx2.messages = ctx.messages ++ [message]) ∧
      (getContext (addMessage m cid message now) cid now).1 = ctx2.messages := by
  simp only [addMessage, h]
  refine ⟨_, lookupKey_setKey_self _ _ _, rfl, rfl, ?_, ?_⟩
  · intro hlt
    rw [if_neg (by simp; omega)]
  · simp only [getContext, lookupKey_setKey_self]
    rw [if_neg (by simp; omega)]

/-- Witness for the amended claim C10: appending `msgNew` at clock 100 to
the expired conversation of `mgrC10` (age 100 > maxAge 10) resets
`lastActivity` and the following read returns the trimmed history. -/
theorem addMessage_skips_expiry_witness :
    ∃ ctx2,
      lookupKey (addMessage mgrC10 "c" msgNew 100).conversations "c" = some ctx2 ∧
      ctx2.lastActivity = 100 ∧
      ctx2.messages
        = (if mgrC10.maxHistoryLength < ([msgOld] ++ [msgNew]).length
           then ([msgOld] ++ [msgNew]).drop
                  (([msgOld] ++ [msgNew]).length - mgrC10.maxHistoryLength)
           else [msgOld] ++ [msgNew]) ∧
      (([msgOld] : List MoltbotMessage).length < mgrC10.maxHistoryLength →
        ctx2.messages = [msgOld] ++ [msgNew]) ∧
      (getContext (addMessage mgrC10 "c" msgNew 100) "c" 100).1 = ctx2.messages :=
  addMessage_skips_expiry mgrC10 "c"
    { chatId := "c", messages := [msgOld], lastActivity := 0, messageCount := 1 }
    msgNew 100 rfl (by decide)

/-- Claim C3: the richText (markdown) transformation is not an identity on
links — `convertMarkdownToLark` rewrites the link `[text](url)` to
`[url](text)`, swapping the rendered text and the target URL (the `[$2]($1)`
replacement), instead of preserving them. -/
theorem convertMarkdownToLark_swaps_link :
    convertMarkdownToLark "[text](url)" = "[url](text)" ∧
    ("[url](text)" : String) ≠ "[text](url)" :=
  ⟨by decide, by decide⟩

/-- Claim C4 counterexample: for a plain-text platform message carrying one
mention, the model-format text gets the mention prefixed, so transforming
back with `format = "text"` yields `"@Ada hi"`, not the original `"hi"`. -/
theorem roundtrip_not_identity_with_mentions :
    msgC4.textContent = some "hi" ∧
    (transformMoltbotToLark (transformLarkToMoltbot msgC4).text "text").text
      = "@Ada hi" ∧
    ("@Ada hi" : String) ≠ "hi" :=
  ⟨rfl, by decide, by decide⟩

/-- Claim C4 (amended): for every plain-text platform message (text content
present, no post content) carrying no mentions, transforming to model format
and back with `format = "text"` is the identity on the text field. -/
theorem roundtrip_identity_without_mentions (message : ParsedLarkMessage)
    (t : String)
    (htext : message.textContent = some t)
    (hpost : message.postContent = none)
    (hm : message.mentions = none ∨ message.mentions = some []) :
    (transformMoltbotToLark (transformLarkToMoltbot message).text "text").text
      = t := by
  have hfmt : (transformMoltbotToLark (transformLarkToMoltbot message).text "text").text
      = (transformLarkToMoltbot message).text := by
    simp only [transformMoltbotToLark]
    rw [if_pos trivial]
  rw [hfmt]
  simp only [transformLarkToMoltbot, htext, hpost]
  have htext0 : (if truthyStr (some t) then (some t).getD "" else "") = t := by
    by_cases ht : t = ""
    · subst ht; simp [truthyStr]
    · simp [truthyStr, ht]
  rcases hm with hm | hm <;> rw [hm]
  · simpa using htext0
  · simpa using htext0

/-- Witness for the amended claim C4: the mention-free plain-text message
`msgC4W` round-trips to its original text `"hello"`. -/
theorem roundtrip_identity_without_mentions_witness :
    (transformMoltbotToLark (transformLarkToMoltbot msgC4W).text "text").text
      = "hello" :=
  roundtrip_identity_without_mentions msgC4W "hello" rfl rfl (Or.inl rfl)

end Moltbot
